import Mathlib

/-!
Verification of the streaming-chat pipeline and diagnosis store of the
healthcare demo application.

The development shallowly embeds the TypeScript sources:
* the chat API route (stream relay: chunk forwarding, suggestion
  extraction, metadata segment, channel close);
* the chat interface component (consumer: accumulate chunks, split on the
  `___METADATA___` sentinel, JSON-parse the metadata, finalize the message,
  sliding conversation-history window, cancellation handling);
* the response-scraping helpers (`extractConfidence`);
* the in-memory diagnoses store (`addDiagnosis`, `updateDiagnosis`).

Strings are modelled as `List Char` (`Str`); JavaScript string operations
(`split`, `trim`, `includes`, `slice(-k)`, regex matching) are translated
to explicit recursive functions on `Str`.
-/

set_option maxHeartbeats 1600000
set_option maxRecDepth 8000

namespace HealthcareSpec

/-- Characters of a string; the protocol logic is modelled over `List Char`.
(JS `string.length` counts UTF-16 units; for the code points exercised here,
all in the BMP, this agrees with `List.length`.) -/
abbrev Str := List Char

def strOf (s : String) : Str := s.data

/-- The whitespace class used for JS `String.prototype.trim` and the regex
class `\s` (ASCII part; the Unicode spaces are never produced here). -/
def jsWs (c : Char) : Bool :=
  c == ' ' || c == '\t' || c == '\n' || c == '\r' || c == '\x0b' || c == '\x0c'

/-- JS `String.prototype.trim`. -/
def jsTrim (s : Str) : Str :=
  ((s.dropWhile jsWs).reverse.dropWhile jsWs).reverse

/-- JS `Array.prototype.slice(-k)`: the last `k` elements (all, when the
array has fewer than `k`). -/
def jsSliceLast (k : Nat) (l : List α) : List α :=
  (l.reverse.take k).reverse

/-- JS `text.split("\n")`: always returns at least one (possibly empty)
field. -/
def splitOnNl : Str → List Str
  | [] => [[]]
  | c :: cs =>
    if c = '\n' then [] :: splitOnNl cs
    else
      match splitOnNl cs with
      | h :: t => (c :: h) :: t
      | [] => [[c]]

/-- `line.replace(/^[•\-\*]\s*/, "")`: drop one leading bullet marker and
the whitespace following it. -/
def stripBullet : Str → Str
  | [] => []
  | c :: cs =>
    if c = '•' || c = '-' || c = '*' then cs.dropWhile jsWs
    else c :: cs

/-- Split a text at the first occurrence of `pat`: `some (before, after)`
where `before ++ pat ++ after` is the text and `before` holds no earlier
occurrence; `none` when `pat` does not occur. -/
def splitFirst (pat : Str) : Str → Option (Str × Str)
  | [] => if pat.isEmpty then some ([], []) else none
  | c :: cs =>
    if pat.isPrefixOf (c :: cs) then some ([], (c :: cs).drop pat.length)
    else
      match splitFirst pat cs with
      | some (a, b) => some (c :: a, b)
      | none => none

/-- JS `text.includes(pat)`. -/
def containsSub (pat t : Str) : Bool :=
  (splitFirst pat t).isSome

/-- The part of `text.split(pat)` before the first occurrence (`[0]`, the
whole text when `pat` is absent). -/
def firstField (pat t : Str) : Str :=
  match splitFirst pat t with
  | some (a, _) => a
  | none => t

/-- The second element of JS `text.split(pat)` (the segment between the
first and the second occurrence): defined when `pat` occurs at least once. -/
def secondField (pat t : Str) : Option Str :=
  match splitFirst pat t with
  | some (_, rest) => some (firstField pat rest)
  | none => none

/-! ### Conversation history window (chat interface component) -/

inductive Role where
  | user
  | assistant
deriving DecidableEq

structure ConversationMessage where
  role : Role
  content : Str
deriving DecidableEq

/-- One history append as the chat interface performs it on both the user
turn and the assistant turn: `[...prev, turn].slice(-10)`. -/
def pushTurn (h : List ConversationMessage) (t : ConversationMessage) :
    List ConversationMessage :=
  jsSliceLast 10 (h ++ [t])

/-! ### JSON values, `JSON.parse` and `JSON.stringify` -/

inductive JValue where
  | jnull
  | jbool (b : Bool)
  | jnum (tok : Str)
  | jstr (s : Str)
  | jarr (elems : List JValue)
  | jobj (fields : List (Str × JValue))

/-- The whitespace `JSON.parse` skips between tokens. -/
def jsonWsChar (c : Char) : Bool :=
  c == ' ' || c == '\t' || c == '\n' || c == '\r'

def skipJsonWs (s : Str) : Str := s.dropWhile jsonWsChar

def hexVal (c : Char) : Option Nat :=
  if '0' ≤ c ∧ c ≤ '9' then some (c.toNat - 48)
  else if 'a' ≤ c ∧ c ≤ 'f' then some (c.toNat - 87)
  else if 'A' ≤ c ∧ c ≤ 'F' then some (c.toNat - 55)
  else none

def jsonEscChar (c : Char) : Option Char :=
  if c = '"' then some '"'
  else if c = '\\' then some '\\'
  else if c = '/' then some '/'
  else if c = 'b' then some '\x08'
  else if c = 'f' then some '\x0c'
  else if c = 'n' then some '\n'
  else if c = 'r' then some '\r'
  else if c = 't' then some '\t'
  else none

/-- Parse the body of a JSON string literal, after the opening quote. (JS
strings are UTF-16 and may hold lone surrogates from `\u` escapes; here a
`\u` escape outside the scalar range goes through `Char.ofNat`'s default, a
corner no claim exercises.) -/
def parseJStr : Str → Option (Str × Str)
  | [] => none
  | '\\' :: 'u' :: a :: b :: c :: d :: r =>
    match hexVal a, hexVal b, hexVal c, hexVal d with
    | some x, some y, some z, some w =>
      match parseJStr r with
      | some (s, rest) =>
        some (Char.ofNat (((x * 16 + y) * 16 + z) * 16 + w) :: s, rest)
      | none => none
    | _, _, _, _ => none
  | '\\' :: e :: r =>
    match jsonEscChar e with
    | some c =>
      match parseJStr r with
      | some (s, rest) => some (c :: s, rest)
      | none => none
    | none => none
  | c :: r =>
    if c = '"' then some ([], r)
    else if c.toNat < 32 then none
    else
      match parseJStr r with
      | some (s, rest) => some (c :: s, rest)
      | none => none

def digitB (c : Char) : Bool := '0' ≤ c && c ≤ '9'

/-- The integer part of a JSON number: `0`, or a nonzero digit followed by
digits. -/
def parseJIntPart : Str → Option (Str × Str)
  | [] => none
  | c :: r =>
    if c = '0' then some (['0'], r)
    else if digitB c then some (c :: r.takeWhile digitB, r.dropWhile digitB)
    else none

/-- The optional fraction part `(. [0-9]+)?`. -/
def parseJFrac : Str → Option (Str × Str)
  | '.' :: r =>
    match r.takeWhile digitB with
    | [] => none
    | ds => some ('.' :: ds, r.dropWhile digitB)
  | s => some ([], s)

/-- The optional exponent part `([eE][+-]?[0-9]+)?`. -/
def parseJExp : Str → Option (Str × Str)
  | [] => some ([], [])
  | c :: r =>
    if c = 'e' ∨ c = 'E' then
      match r with
      | [] => none
      | sgn :: r2 =>
        if sgn = '+' ∨ sgn = '-' then
          match r2.takeWhile digitB with
          | [] => none
          | ds => some (c :: sgn :: ds, r2.dropWhile digitB)
        else
          match r.takeWhile digitB with
          | [] => none
          | ds => some (c :: ds, r.dropWhile digitB)
    else some ([], c :: r)

/-- A JSON number token (kept raw: only its identity matters here). -/
def parseJNum (s : Str) : Option (Str × Str) :=
  let sgn : Str × Str :=
    match s with
    | '-' :: r => (['-'], r)
    | _ => ([], s)
  match parseJIntPart sgn.2 with
  | none => none
  | some (ip, r1) =>
    match parseJFrac r1 with
    | none => none
    | some (fp, r2) =>
      match parseJExp r2 with
      | none => none
      | some (ep, r3) => some (sgn.1 ++ ip ++ fp ++ ep, r3)

/-- Insert a key into an object under construction: a duplicate key
overwrites the earlier value in place, as `JSON.parse` does. -/
def objInsert : List (Str × JValue) → Str → JValue → List (Str × JValue)
  | [], k, v => [(k, v)]
  | (k', v') :: rest, k, v =>
    if k' = k then (k', v) :: rest else (k', v') :: objInsert rest k v

/-- Parser state: a plain value, the items of an array after `[`, or the
members of an object after `{` (accumulators hold what was parsed so far). -/
inductive JMode where
  | value
  | arrItems (acc : List JValue)
  | objItems (acc : List (Str × JValue))

/-- Recursive-descent JSON parser; the fuel only drives the structural
recursion and `input length + 1` always suffices (every two fuel steps
consume at least one input character). -/
def parseJ : Nat → JMode → Str → Option (JValue × Str)
  | 0, _, _ => none
  | fuel + 1, .value, s =>
    match skipJsonWs s with
    | 'n' :: 'u' :: 'l' :: 'l' :: r => some (.jnull, r)
    | 't' :: 'r' :: 'u' :: 'e' :: r => some (.jbool true, r)
    | 'f' :: 'a' :: 'l' :: 's' :: 'e' :: r => some (.jbool false, r)
    | '"' :: r =>
      match parseJStr r with
      | some (str, rest) => some (.jstr str, rest)
      | none => none
    | '[' :: r =>
      match skipJsonWs r with
      | ']' :: rest => some (.jarr [], rest)
      | _ => parseJ fuel (.arrItems []) r
    | '\x7b' :: r =>
      match skipJsonWs r with
      | '\x7d' :: rest => some (.jobj [], rest)
      | _ => parseJ fuel (.objItems []) r
    | s' =>
      match parseJNum s' with
      | some (tok, rest) => some (.jnum tok, rest)
      | none => none
  | fuel + 1, .arrItems acc, s =>
    match parseJ fuel .value s with
    | none => none
    | some (v, rest) =>
      match skipJsonWs rest with
      | ',' :: r2 => parseJ fuel (.arrItems (acc ++ [v])) r2
      | ']' :: r2 => some (.jarr (acc ++ [v]), r2)
      | _ => none
  | fuel + 1, .objItems acc, s =>
    match skipJsonWs s with
    | '"' :: r =>
      match parseJStr r with
      | none => none
      | some (key, r1) =>
        match skipJsonWs r1 with
        | ':' :: r2 =>
          match parseJ fuel .value r2 with
          | none => none
          | some (v, r3) =>
            match skipJsonWs r3 with
            | ',' :: r4 => parseJ fuel (.objItems (objInsert acc key v)) r4
            | '\x7d' :: r4 => some (.jobj (objInsert acc key v), r4)
            | _ => none
        | _ => none
    | _ => none

/-- `JSON.parse`: a single value, with only whitespace allowed around it;
`none` models the thrown `SyntaxError`. -/
def jsonParse (t : Str) : Option JValue :=
  match parseJ (t.length + 1) .value t with
  | some (v, rest) => if (skipJsonWs rest).isEmpty then some v else none
  | none => none

def lookupField : List (Str × JValue) → Str → Option JValue
  | [], _ => none
  | (k', v) :: rest, k => if k' = k then some v else lookupField rest k

/-- JS member access `parsedValue.key` on a parsed JSON value (`undefined`,
i.e. `none`, on non-objects). -/
def getField (v : JValue) (k : Str) : Option JValue :=
  match v with
  | .jobj fields => lookupField fields k
  | _ => none

/-- Whether a JSON number token denotes zero (mantissa digits all `0`). -/
def jnumIsZero (tok : Str) : Bool :=
  (tok.takeWhile fun c => !(c == 'e' || c == 'E')).all fun c =>
    c == '-' || c == '0' || c == '.'

/-- JS truthiness of a parsed JSON value. -/
def truthy : JValue → Bool
  | .jnull => false
  | .jbool b => b
  | .jnum tok => !jnumIsZero tok
  | .jstr s => !s.isEmpty
  | .jarr _ => true
  | .jobj _ => true

def hexDigitChar (n : Nat) : Char :=
  if n < 10 then Char.ofNat (48 + n) else Char.ofNat (87 + n)

/-- How `JSON.stringify` escapes one character inside a string literal. -/
def jsonEscapeChar (c : Char) : Str :=
  if c = '"' then ['\\', '"']
  else if c = '\\' then ['\\', '\\']
  else if c = '\x08' then ['\\', 'b']
  else if c = '\x0c' then ['\\', 'f']
  else if c = '\n' then ['\\', 'n']
  else if c = '\r' then ['\\', 'r']
  else if c = '\t' then ['\\', 't']
  else if c.toNat < 32 then
    ['\\', 'u', '0', '0', hexDigitChar (c.toNat / 16), hexDigitChar (c.toNat % 16)]
  else [c]

def jsonStrLit (s : Str) : Str := '"' :: (s.map jsonEscapeChar).flatten ++ ['"']

def jsonArrLit (items : List Str) : Str :=
  '[' :: List.intercalate [','] items ++ [']']

/-- `JSON.stringify({suggestions, done: true, timestamp, category})`, fields
in insertion order. -/
def stringifyMetadata (suggestions : List Str) (timestamp category : Str) :
    Str :=
  strOf ("\x7b\"suggestions\":") ++ jsonArrLit (suggestions.map jsonStrLit) ++
    strOf (",\"done\":true,\"timestamp\":") ++ jsonStrLit timestamp ++
    strOf (",\"category\":") ++ jsonStrLit category ++ strOf ("\x7d")

/-! ### Suggestion extraction and the stream relay (chat API route) -/

/-- Case-insensitive prefix test against an already-lowercased pattern. -/
def icIsPrefixOf : Str → Str → Bool
  | [], _ => true
  | _ :: _, [] => false
  | p :: ps, c :: cs => p == c.toLower && icIsPrefixOf ps cs

/-- `/\*\*Follow-up Questions?:\*\*/i`, the plural spelling (tried first at
each position, as the greedy `s?` does). -/
def fuqHeaderPl : Str := strOf ("**follow-up questions:**")

/-- The singular spelling of the heading. -/
def fuqHeaderSg : Str := strOf ("**follow-up question:**")

/-- Leftmost match of the heading regex; returns the text after the matched
heading. -/
def findFUQ : Str → Option Str
  | [] => none
  | c :: cs =>
    if icIsPrefixOf fuqHeaderPl (c :: cs) then
      some ((c :: cs).drop fuqHeaderPl.length)
    else if icIsPrefixOf fuqHeaderSg (c :: cs) then
      some ((c :: cs).drop fuqHeaderSg.length)
    else findFUQ cs

/-- The lazy capture `([\s\S]*?)(?=\n\n##|$)`: everything up to the first
`"\n\n##"`, or to the end when there is none. -/
def captureFUQBody (s : Str) : Str := firstField (strOf ("\n\n##")) s

/-- The capture group `match[1]` of the suggestion pattern. -/
def findFUQBody (t : Str) : Option Str := (findFUQ t).map captureFUQBody

/-- The length filter `line.length > 10 && line.length < 150`. -/
def suggestionLenOK (l : Str) : Bool := 10 < l.length && l.length < 150

/-- `line.trim().replace(/^[•\-\*]\s*/, "")`. -/
def cleanSuggestionLine (l : Str) : Str := stripBullet (jsTrim l)

/-- Suggestion extraction the chat API route performs on the complete
response text. -/
def extractSuggestions (fullText : Str) : List Str :=
  match findFUQBody fullText with
  | none => []
  | some body =>
    if body.isEmpty then []
    else ((splitOnNl body).map cleanSuggestionLine).filter suggestionLenOK

/-- `category || "general"` (and JS `||` on a possibly-missing string). -/
def jsOrDefault (v : Option Str) (dflt : Str) : Str :=
  match v with
  | some s => if s.isEmpty then dflt else s
  | none => dflt

inductive StreamEvent where
  | chunk (data : Str)
  | close
deriving DecidableEq

/-- The final segment the relay enqueues: the sentinel line followed by the
serialized metadata computed from the full concatenated text. -/
def metadataSegment (fullText timestamp : Str) (category : Option Str) :
    Str :=
  strOf ("\n___METADATA___\n") ++
    stringifyMetadata (extractSuggestions fullText) timestamp
      (jsOrDefault category (strOf ("general")))

def relayGo (timestamp : Str) (category : Option Str) :
    List Str → Str → List StreamEvent
  | [], fullText =>
    [.chunk (metadataSegment fullText timestamp category), .close]
  | c :: cs, fullText => .chunk c :: relayGo timestamp category cs (fullText ++ c)

/-- The relay's downstream event sequence for an upstream chunk sequence
that completes normally (the `start` callback of the `ReadableStream`:
forward each chunk as it arrives while accumulating `fullText`, then
enqueue the metadata segment and close). -/
def relayRun (chunks : List Str) (timestamp : Str) (category : Option Str) :
    List StreamEvent :=
  relayGo timestamp category chunks []

/-! ### The consumer (chat interface: read loop and finalization) -/

def sentinel : Str := strOf ("___METADATA___")

/-- The consumer read loop: push each chunk, join, and break as soon as the
accumulated text contains the sentinel. Returns the accumulated text of the
chunks actually read and, when the sentinel was seen, the metadata part
(JS `split`'s second field, between the first two sentinel occurrences). -/
def readLoop : List Str → Str → Str × Option Str
  | [], acc => (acc, none)
  | c :: cs, acc =>
    let acc' := acc ++ c
    if containsSub sentinel acc' then (acc', secondField sentinel acc')
    else readLoop cs acc'

structure ConsumeResult where
  finalText : Str
  parsedMeta : Option JValue
  suggestions : JValue

/-- End-to-end consumer processing of the received chunk sequence: the
final displayable text (`split`'s first field over the consumed text), the
parsed metadata when the sentinel was seen and its JSON parsed
(`JSON.parse` failure is caught and only logged), and the suggestions state
(reset to `[]` on submission, then set only from a truthy
`metadata.suggestions`). -/
def runConsume (chunks : List Str) : ConsumeResult :=
  let r := readLoop chunks []
  let finalText := firstField sentinel r.1
  match r.2 with
  | none => ⟨finalText, none, .jarr []⟩
  | some metaPart =>
    match jsonParse metaPart with
    | none => ⟨finalText, none, .jarr []⟩
    | some v =>
      match getField v (strOf ("suggestions")) with
      | some s => ⟨finalText, some v, if truthy s then s else .jarr []⟩
      | none => ⟨finalText, some v, .jarr []⟩

/-! ### Decimal rendering (JS `String(n)` / template interpolation) -/

def digitChar (d : Nat) : Char := Char.ofNat (48 + d)

def natStrAux : Nat → Nat → Str
  | 0, _ => []
  | fuel + 1, n =>
    if n < 10 then [digitChar n]
    else natStrAux fuel (n / 10) ++ [digitChar (n % 10)]

/-- Decimal rendering of a natural number; the fuel argument only drives the
structural recursion and `n + 1` always suffices. -/
def natStr (n : Nat) : Str := natStrAux (n + 1) n

/-! ### The chat interface state and `handleSubmit` -/

inductive Sender where
  | user
  | ai
deriving DecidableEq

structure ChatMessage where
  id : Str
  message : Str
  sender : Sender
  timestamp : Nat
  streaming : Option Bool
  status : Option Str
deriving DecidableEq

/-- The React state owned by one chat interface instance. (The transient
`streamingMessage` display string is omitted: no claim concerns it. Wall
times are opaque; one `now` stands for the `Date.now()` calls of a single
submission.) -/
structure ChatState where
  messages : List ChatMessage
  conversationHistory : List ConversationMessage
  suggestions : JValue
  isLoading : Bool
  inputMessage : Str

def mkUserMsg (now : Nat) (text : Str) : ChatMessage :=
  ⟨strOf ("user-") ++ natStr now, text, .user, now, none, none⟩

/-- The placeholder appended before the read loop starts. -/
def mkAiPlaceholder (now : Nat) : ChatMessage :=
  ⟨strOf ("ai-") ++ natStr now, [], .ai, now, some true, none⟩

def userSafeErrorText : Str :=
  strOf ("Sorry, something went wrong. Please try again.")

def mkErrorMsg (now : Nat) : ChatMessage :=
  ⟨strOf ("error-") ++ natStr now, userSafeErrorText, .ai, now, none,
    some (strOf ("error"))⟩

/-- How one submission's network interaction resolved, as observed by
`handleSubmit`. -/
inductive FetchOutcome where
  | failed
  | abortedEarly
  | abortedMid (consumed : List Str)
  | completed (chunks : List Str)
  | errorMid (consumed : List Str)

/-- The post-loop finalization: rewrite the placeholder with the final text
and `streaming: false`, push the assistant turn, store the suggestions,
clear the loading flag. -/
def finalizeTurn (st : ChatState) (now : Nat) (chunks : List Str) :
    ChatState :=
  let res := runConsume chunks
  let aiId := strOf ("ai-") ++ natStr now
  ⟨st.messages.map fun m =>
      if m.id = aiId then
        ⟨m.id, res.finalText, m.sender, m.timestamp, some false, m.status⟩
      else m,
    pushTurn st.conversationHistory ⟨.assistant, res.finalText⟩,
    res.suggestions, false, st.inputMessage⟩

/-- One complete run of `handleSubmit` for a given network outcome.

An abort or a read error can only surface at a `reader.read()` call, so
when the consumed prefix already contains the sentinel the loop has broken
first and finalization proceeds normally; otherwise the `catch` block runs:
silently for `AbortError`, appending the fixed error message for anything
else. The placeholder message stays in `messages` on both paths. -/
def handleSubmit (st : ChatState) (now : Nat) (outcome : FetchOutcome) :
    ChatState :=
  if (jsTrim st.inputMessage).isEmpty || st.isLoading then st
  else
    let msgText := jsTrim st.inputMessage
    let hist1 := pushTurn st.conversationHistory ⟨.user, msgText⟩
    let msgs1 := st.messages ++ [mkUserMsg now msgText]
    match outcome with
    | .failed => ⟨msgs1 ++ [mkErrorMsg now], hist1, .jarr [], false, []⟩
    | .abortedEarly => ⟨msgs1, hist1, .jarr [], false, []⟩
    | .abortedMid consumed =>
      let st2 : ChatState :=
        ⟨msgs1 ++ [mkAiPlaceholder now], hist1, .jarr [], true, []⟩
      if (readLoop consumed []).2.isSome then finalizeTurn st2 now consumed
      else ⟨st2.messages, hist1, .jarr [], false, []⟩
    | .completed chunks =>
      finalizeTurn ⟨msgs1 ++ [mkAiPlaceholder now], hist1, .jarr [], true, []⟩
        now chunks
    | .errorMid consumed =>
      let st2 : ChatState :=
        ⟨msgs1 ++ [mkAiPlaceholder now], hist1, .jarr [], true, []⟩
      if (readLoop consumed []).2.isSome then finalizeTurn st2 now consumed
      else ⟨st2.messages ++ [mkErrorMsg now], hist1, .jarr [], false, []⟩

/-! ### Confidence extraction (`/(\d+(?:\.\d+)?\s*%)/`) -/

/-- The tail of a percent match after the numeric part: `\s*%`. -/
def percentWsTail (acc r : Str) : Option Str :=
  match r.dropWhile jsWs with
  | '%' :: _ => some (acc ++ r.takeWhile jsWs ++ ['%'])
  | _ => none

/-- The greedy optional group `(?:\.\d+)?` followed by `\s*%`. -/
def percentFracTry (d r : Str) : Option Str :=
  match r with
  | '.' :: r2 =>
    match r2.takeWhile digitB with
    | [] => none
    | ds => percentWsTail (d ++ '.' :: ds) (r2.dropWhile digitB)
  | _ => none

/-- Match `\d+(?:\.\d+)?\s*%` at the start of `s` (maximal digit runs; the
optional fraction is tried first and dropped on failure, as the regex
backtracks). -/
def matchPercent (s : Str) : Option Str :=
  match s.takeWhile digitB with
  | [] => none
  | d =>
    match percentFracTry d (s.dropWhile digitB) with
    | some tok => some tok
    | none => percentWsTail d (s.dropWhile digitB)

/-- `text.match(/(\d+(?:\.\d+)?\s*%)/)?.[1] || ""`: the leftmost match of
the confidence pattern, or the empty string. -/
def extractConfidenceL : Str → Str
  | [] => []
  | c :: cs =>
    match matchPercent (c :: cs) with
    | some tok => tok
    | none => extractConfidenceL cs

def extractConfidence (text : String) : String :=
  ⟨extractConfidenceL text.data⟩

/-- Spec-side check: is `s` literally of the shape `NN[.N]%` (digits, an
optional dot-and-digits fraction, then an immediate percent sign)? -/
def isStrictPercentToken (s : Str) : Bool :=
  match s.takeWhile digitB with
  | [] => false
  | _ =>
    match s.dropWhile digitB with
    | ['%'] => true
    | '.' :: r2 =>
      match r2.takeWhile digitB with
      | [] => false
      | _ => r2.dropWhile digitB == ['%']
    | _ => false

/-- Spec-side check: does some contiguous substring of `t` have the shape
`NN[.N]%`? -/
def hasStrictPercentToken (t : Str) : Bool :=
  t.tails.any fun suf => suf.inits.any isStrictPercentToken

/-! ### The in-memory diagnoses store -/

structure AiModelData where
  modelVersion : Str
  analysisTimestamp : Str
  processingTime : Str
  featuresAnalyzed : Str
deriving DecidableEq

structure AiResponseData where
  fullText : Str
  sections : List Str
deriving DecidableEq

/-- `DiagnosisData` (confidence is numeric; the values used are integers). -/
structure DiagnosisData where
  id : Str
  diagnosisDate : Str
  type : Str
  aiDiagnosis : Str
  confidence : Int
  status : Str
  symptoms : Str
  doctorName : Str
  doctorFeedback : Str
  imageSrc : Str
  aiModelData : AiModelData
  treatmentRecommendations : List Str
  riskFactors : List Str
  aiResponse : Option AiResponseData
  reviewDate : Option Str
deriving DecidableEq

/-- `Omit<DiagnosisData, 'id'>`, the argument of `addDiagnosis`. -/
structure DiagnosisInput where
  diagnosisDate : Str
  type : Str
  aiDiagnosis : Str
  confidence : Int
  status : Str
  symptoms : Str
  doctorName : Str
  doctorFeedback : Str
  imageSrc : Str
  aiModelData : AiModelData
  treatmentRecommendations : List Str
  riskFactors : List Str
  aiResponse : Option AiResponseData
  reviewDate : Option Str
deriving DecidableEq

/-- `{...diagnosis, id}`. -/
def withId (d : DiagnosisInput) (id : Str) : DiagnosisData :=
  ⟨id, d.diagnosisDate, d.type, d.aiDiagnosis, d.confidence, d.status,
    d.symptoms, d.doctorName, d.doctorFeedback, d.imageSrc, d.aiModelData,
    d.treatmentRecommendations, d.riskFactors, d.aiResponse, d.reviewDate⟩

/-- `Partial<DiagnosisData>`: `none` for a field not named in the update. -/
structure DiagnosisUpdate where
  id : Option Str
  diagnosisDate : Option Str
  type : Option Str
  aiDiagnosis : Option Str
  confidence : Option Int
  status : Option Str
  symptoms : Option Str
  doctorName : Option Str
  doctorFeedback : Option Str
  imageSrc : Option Str
  aiModelData : Option AiModelData
  treatmentRecommendations : Option (List Str)
  riskFactors : Option (List Str)
  aiResponse : Option (Option AiResponseData)
  reviewDate : Option (Option Str)
deriving DecidableEq

/-- The spread `{...diagnoses[id], ...updates}`. -/
def mergeDiag (d : DiagnosisData) (u : DiagnosisUpdate) : DiagnosisData :=
  ⟨u.id.getD d.id, u.diagnosisDate.getD d.diagnosisDate, u.type.getD d.type,
    u.aiDiagnosis.getD d.aiDiagnosis, u.confidence.getD d.confidence,
    u.status.getD d.status, u.symptoms.getD d.symptoms,
    u.doctorName.getD d.doctorName, u.doctorFeedback.getD d.doctorFeedback,
    u.imageSrc.getD d.imageSrc, u.aiModelData.getD d.aiModelData,
    u.treatmentRecommendations.getD d.treatmentRecommendations,
    u.riskFactors.getD d.riskFactors, u.aiResponse.getD d.aiResponse,
    u.reviewDate.getD d.reviewDate⟩

/-- The module state: the keyed record object plus the id counter. The JS
object is modelled as an association list in property order. -/
structure DiagnosesStore where
  entries : List (Str × DiagnosisData)
  counter : Nat
deriving DecidableEq

/-- Property read `diagnoses[id]`. -/
def storeLookup : List (Str × DiagnosisData) → Str → Option DiagnosisData
  | [], _ => none
  | (k, v) :: rest, id => if k = id then some v else storeLookup rest id

/-- Property write `diagnoses[id] = v`: replace in place when the key
exists, append otherwise. -/
def storeSet : List (Str × DiagnosisData) → Str → DiagnosisData →
    List (Str × DiagnosisData)
  | [], id, v => [(id, v)]
  | (k, v') :: rest, id, v =>
    if k = id then (k, v) :: rest else (k, v') :: storeSet rest id v

def getDiagnosis (st : DiagnosesStore) (id : Str) : Option DiagnosisData :=
  storeLookup st.entries id

def addDiagnosis (st : DiagnosesStore) (d : DiagnosisInput) :
    DiagnosisData × DiagnosesStore :=
  let c := st.counter + 1
  let id := natStr c
  let nd := withId d id
  (nd, ⟨storeSet st.entries id nd, c⟩)

def updateDiagnosis (st : DiagnosesStore) (id : Str) (u : DiagnosisUpdate) :
    Option DiagnosisData × DiagnosesStore :=
  match storeLookup st.entries id with
  | none => (none, st)
  | some d => (some (mergeDiag d u), ⟨storeSet st.entries id (mergeDiag d u), st.counter⟩)

/-- The well-formedness the seeded store starts with and every operation
preserves: each key is the decimal rendering of some `1 ≤ m ≤ counter`. -/
def StoreKeysBounded (st : DiagnosesStore) : Prop :=
  ∀ k v, (k, v) ∈ st.entries → ∃ m, 1 ≤ m ∧ m ≤ st.counter ∧ k = natStr m

/-- The seeded store shape: ids `"1"`, `"2"`, `"3"` and counter `3` (the
seed record contents are irrelevant to every claim and are abstracted). -/
def seededStore (d1 d2 d3 : DiagnosisData) : DiagnosesStore :=
  ⟨[(strOf ("1"), d1), (strOf ("2"), d2), (strOf ("3"), d3)], 3⟩

/-- Concatenation of the received chunks (`chunks.join("")`). -/
def joinL (chunks : List Str) : Str := chunks.flatten

/-! ## Theorems -/

theorem splitFirst_isSome_iff (pat t : Str) :
    (splitFirst pat t).isSome = true ↔ pat <:+: t := by
  induction t with
  | nil =>
    rcases pat with _ | ⟨p, ps⟩
    · simp [splitFirst]
    · simp [splitFirst]
  | cons c cs ih =>
    by_cases h : pat.isPrefixOf (c :: cs)
    · simp only [splitFirst, if_pos h, Option.isSome_some, true_iff]
      exact (List.isPrefixOf_iff_prefix.mp h).isInfix
    · rw [List.infix_cons_iff]
      cases hsp : splitFirst pat cs with
      | none =>
        simp only [splitFirst, if_neg h, hsp]
        constructor
        · intro hfalse; simp at hfalse
        · rintro (hp | hi)
          · exact absurd (List.isPrefixOf_iff_prefix.mpr hp) h
          · rw [← ih, hsp] at hi; simp at hi
      | some p =>
        rcases p with ⟨a, b⟩
        simp only [splitFirst, if_neg h, hsp, Option.isSome_some, true_iff]
        right
        rw [← ih, hsp]
        simp

theorem containsSub_iff_occurs (pat t : Str) :
    containsSub pat t = true ↔ pat <:+: t := by
  rw [containsSub, splitFirst_isSome_iff]

theorem containsSub_append_left (pat x y : Str)
    (h : containsSub pat (x ++ y) = false) : containsSub pat x = false := by
  rw [← Bool.not_eq_true] at h ⊢
  intro hx
  exact h ((containsSub_iff_occurs pat (x ++ y)).mpr
    (((containsSub_iff_occurs pat x).mp hx).trans (x.prefix_append y).isInfix))

theorem splitFirst_eq_none (pat t : Str) (h : containsSub pat t = false) :
    splitFirst pat t = none := by
  rw [containsSub] at h
  cases hsp : splitFirst pat t with
  | none => rfl
  | some p => rw [hsp] at h; simp at h

theorem firstField_of_not_contains (pat t : Str)
    (h : containsSub pat t = false) : firstField pat t = t := by
  rw [firstField, splitFirst_eq_none pat t h]

/-- If no sentinel occurrence starts strictly inside `a`, the split of
`a ++ S ++ b` at the first occurrence of `S` yields exactly `(a, b)`. -/
theorem splitFirst_marker (S : Str) (hS : S ≠ []) (b : Str) :
    ∀ a : Str,
      (∀ u, u <:+ a → u ≠ [] → ¬S.isPrefixOf (u ++ (S ++ b)) = true) →
      splitFirst S (a ++ (S ++ b)) = some (a, b) := by
  intro a
  induction a with
  | nil =>
    intro _
    rcases S with _ | ⟨s, S'⟩
    · exact absurd rfl hS
    · have hpre : List.isPrefixOf (s :: S') ((s :: S') ++ b) = true :=
        List.isPrefixOf_iff_prefix.mpr ((s :: S').prefix_append b)
      have hd := List.drop_left (s :: S') b
      simp only [List.cons_append] at hpre hd
      simp only [List.nil_append, List.cons_append, List.append_eq,
        splitFirst, if_pos hpre, hd]
  | cons c a' ih =>
    intro H
    have hne : ¬S.isPrefixOf ((c :: a') ++ (S ++ b)) = true :=
      H (c :: a') (List.suffix_refl _) (by simp)
    have step := ih fun u hu hune =>
      H u (hu.trans (List.suffix_cons c a')) hune
    simp only [List.cons_append] at hne ⊢
    simp only [splitFirst, if_neg hne, step]

/-- If `S` holds no newline and `a` ends with one and is `S`-free, then no
occurrence of `S` starts inside `a` in `a ++ S ++ b`. -/
theorem no_early_marker (S : Str) (b : Str) (hnl : '\n' ∉ S) (a : Str)
    (hlast : a.getLast? = some '\n') (hfree : containsSub S a = false) :
    ∀ u, u <:+ a → u ≠ [] → ¬S.isPrefixOf (u ++ (S ++ b)) = true := by
  intro u hsuf hne hpre'
  have hpre : S <+: u ++ (S ++ b) := List.isPrefixOf_iff_prefix.mp hpre'
  rcases le_or_lt S.length u.length with h | h
  · have hu : u <+: u ++ (S ++ b) := u.prefix_append (S ++ b)
    have hSu : S <+: u := List.prefix_of_prefix_length_le hpre hu h
    have hinf : S <:+: a := hSu.isInfix.trans hsuf.isInfix
    rw [← containsSub_iff_occurs] at hinf
    rw [hinf] at hfree
    simp at hfree
  · have hu : u <+: u ++ (S ++ b) := u.prefix_append (S ++ b)
    have huS : u <+: S := List.prefix_of_prefix_length_le hu hpre h.le
    have hmem : '\n' ∈ u := by
      rcases hsuf with ⟨p, hp⟩
      rw [← hp, List.getLast?_append_of_ne_nil p hne] at hlast
      rw [List.getLast?_eq_getLast_of_ne_nil hne] at hlast
      have hgl : u.getLast hne = '\n' := by simpa using hlast
      rw [← hgl]
      exact List.getLast_mem hne
    exact hnl (huS.subset hmem)

theorem readLoop_none (cs : List Str) :
    ∀ acc, containsSub sentinel (acc ++ joinL cs) = false →
      readLoop cs acc = (acc ++ joinL cs, none) := by
  induction cs with
  | nil => intro acc h; simp [readLoop, joinL]
  | cons c cs ih =>
    intro acc h
    have hassoc : acc ++ joinL (c :: cs) = (acc ++ c) ++ joinL cs := by
      simp [joinL]
    rw [hassoc] at h ⊢
    have hcond : containsSub sentinel (acc ++ c) = false :=
      containsSub_append_left _ _ _ h
    simp only [readLoop]
    rw [if_neg (by simp [hcond])]
    exact ih (acc ++ c) h

theorem readLoop_found (cs : List Str) :
    ∀ acc, containsSub sentinel (acc ++ joinL cs.dropLast) = false →
      containsSub sentinel (acc ++ joinL cs) = true →
      readLoop cs acc =
        (acc ++ joinL cs, secondField sentinel (acc ++ joinL cs)) := by
  induction cs with
  | nil =>
    intro acc hdrop hfull
    simp only [List.dropLast_nil, joinL, List.flatten_nil,
      List.append_nil] at hdrop hfull
    rw [hdrop] at hfull
    exact absurd hfull (by simp)
  | cons c cs ih =>
    intro acc hdrop hfull
    rcases cs with _ | ⟨c2, cs'⟩
    · simp only [joinL, List.flatten_cons, List.flatten_nil,
        List.append_nil] at hfull ⊢
      simp only [readLoop]
      rw [if_pos hfull]
    · have hd : (c :: c2 :: cs').dropLast = c :: (c2 :: cs').dropLast := rfl
      rw [hd] at hdrop
      have hassoc1 : acc ++ joinL (c :: (c2 :: cs').dropLast) =
          (acc ++ c) ++ joinL (c2 :: cs').dropLast := by simp [joinL]
      rw [hassoc1] at hdrop
      have hcond : containsSub sentinel (acc ++ c) = false :=
        containsSub_append_left _ _ _ hdrop
      have hassoc2 : acc ++ joinL (c :: c2 :: cs') =
          (acc ++ c) ++ joinL (c2 :: cs') := by simp [joinL]
      rw [hassoc2] at hfull ⊢
      simp only [readLoop]
      rw [if_neg (by simp [hcond])]
      exact ih (acc ++ c) hdrop hfull

theorem relayGo_eq (timestamp : Str) (category : Option Str)
    (cs : List Str) :
    ∀ acc, relayGo timestamp category cs acc =
      cs.map StreamEvent.chunk ++
        [.chunk (metadataSegment (acc ++ joinL cs) timestamp category),
         .close] := by
  induction cs with
  | nil => intro acc; simp [relayGo, joinL]
  | cons c cs ih =>
    intro acc
    simp only [relayGo, List.map_cons, List.cons_append, List.cons.injEq,
      true_and]
    rw [ih (acc ++ c)]
    have : (acc ++ c) ++ joinL cs = acc ++ joinL (c :: cs) := by simp [joinL]
    rw [this]

theorem runConsume_found (chunks : List Str) (a rest : Str)
    (hsplit : splitFirst sentinel (joinL chunks) = some (a, rest))
    (hdrop : containsSub sentinel (joinL chunks.dropLast) = false)
    (hrest : containsSub sentinel rest = false) :
    (runConsume chunks).finalText = a ∧
    (runConsume chunks).parsedMeta = jsonParse rest ∧
    (runConsume chunks).suggestions =
      (match jsonParse rest with
       | some v =>
         match getField v (strOf ("suggestions")) with
         | some s => if truthy s then s else JValue.jarr []
         | none => JValue.jarr []
       | none => JValue.jarr []) := by
  have hfull : containsSub sentinel (joinL chunks) = true := by
    rw [containsSub, hsplit]
    rfl
  have h0 := readLoop_found chunks [] (by simpa using hdrop)
    (by simpa using hfull)
  simp only [List.nil_append] at h0
  have hsec : secondField sentinel (joinL chunks) = some rest := by
    rw [secondField, hsplit]
    show some (firstField sentinel rest) = some rest
    rw [firstField_of_not_contains _ _ hrest]
  have hff : firstField sentinel (joinL chunks) = a := by
    rw [firstField, hsplit]
  simp only [runConsume, h0, hsec, hff]
  cases hp : jsonParse rest with
  | none => exact ⟨rfl, rfl, rfl⟩
  | some v =>
    dsimp only
    cases hg : getField v (strOf ("suggestions")) with
    | none => exact ⟨rfl, rfl, rfl⟩
    | some s => exact ⟨rfl, rfl, rfl⟩

/-- Claim C1 (amended): when the concatenated chunk text is
`content ++ "\n___METADATA___\n" ++ json` with neither `content ++ "\n"`
nor `"\n" ++ json` containing the sentinel, and the sentinel's first
occurrence is only completed in the final chunk (as when the relay sends
sentinel and JSON as one segment), the consumer finalizes the assistant
message with `content ++ "\n"` — the newline preceding the sentinel is
kept, not stripped — and parses the metadata successfully to exactly the
value denoted by the JSON, taking its `suggestions` field when truthy. -/
theorem sentinel_determinism_amended (chunks : List Str)
    (content json : Str) (v : JValue)
    (hjoin : joinL chunks = (content ++ ['\n']) ++ (sentinel ++ ('\n' :: json)))
    (hcontent : containsSub sentinel (content ++ ['\n']) = false)
    (hjson : containsSub sentinel ('\n' :: json) = false)
    (hdrop : containsSub sentinel (joinL chunks.dropLast) = false)
    (hparse : jsonParse ('\n' :: json) = some v) :
    (runConsume chunks).finalText = content ++ ['\n'] ∧
    (runConsume chunks).parsedMeta = some v ∧
    ∀ s, getField v (strOf ("suggestions")) = some s → truthy s = true →
      (runConsume chunks).suggestions = s := by
  have hsplit : splitFirst sentinel (joinL chunks) =
      some (content ++ ['\n'], '\n' :: json) := by
    rw [hjoin]
    exact splitFirst_marker sentinel (by decide) ('\n' :: json)
      (content ++ ['\n'])
      (no_early_marker sentinel ('\n' :: json) (by decide) (content ++ ['\n'])
        (by simp) hcontent)
  obtain ⟨h1, h2, h3⟩ := runConsume_found chunks _ _ hsplit hdrop hjson
  refine ⟨h1, by rw [h2, hparse], ?_⟩
  intro s hs ht
  rw [h3, hparse]
  dsimp only
  simp [hs, ht]

/-- Witness for C1 (amended) on the scenario chunks with the metadata sent
as a single final segment: the finalized content carries the extra trailing
newline and the suggestion list is recovered. -/
theorem sentinel_determinism_amended_witness :
    (runConsume [strOf ("## Flu\n"), strOf ("**Fever**\n"),
        strOf ("\n___METADATA___\n\x7b\"suggestions\":[\"How long does it last?\"],\"done\":true\x7d")]).finalText =
      strOf ("## Flu\n**Fever**\n\n") ∧
    (runConsume [strOf ("## Flu\n"), strOf ("**Fever**\n"),
        strOf ("\n___METADATA___\n\x7b\"suggestions\":[\"How long does it last?\"],\"done\":true\x7d")]).suggestions =
      JValue.jarr [JValue.jstr (strOf ("How long does it last?"))] := by
  have h := sentinel_determinism_amended
    [strOf ("## Flu\n"), strOf ("**Fever**\n"),
      strOf ("\n___METADATA___\n\x7b\"suggestions\":[\"How long does it last?\"],\"done\":true\x7d")]
    (strOf ("## Flu\n**Fever**\n"))
    (strOf ("\x7b\"suggestions\":[\"How long does it last?\"],\"done\":true\x7d"))
    (JValue.jobj
      [(strOf ("suggestions"),
         JValue.jarr [JValue.jstr (strOf ("How long does it last?"))]),
       (strOf ("done"), JValue.jbool true)])
    rfl rfl rfl rfl rfl
  exact ⟨h.1.trans (by decide), h.2.2 _ rfl rfl⟩

/-- Counterexample to C1 as stated: on the four-chunk scenario sequence the
consumer splits on `"___METADATA___"` alone (keeping the preceding newline
in the content) and breaks out of the read loop as soon as the sentinel
chunk arrives, never reading the JSON chunk; the finalized content is
`"## Flu\n**Fever**\n\n"`, not `"## Flu\n**Fever**\n"`, metadata parsing
fails, and the suggestions stay empty instead of the claimed list. -/
theorem sentinel_scenario_counterexample :
    (runConsume [strOf ("## Flu\n"), strOf ("**Fever**\n"),
        strOf ("\n___METADATA___\n"),
        strOf ("\x7b\"suggestions\":[\"How long does it last?\"],\"done\":true\x7d")]).finalText ≠
      strOf ("## Flu\n**Fever**\n") ∧
    (runConsume [strOf ("## Flu\n"), strOf ("**Fever**\n"),
        strOf ("\n___METADATA___\n"),
        strOf ("\x7b\"suggestions\":[\"How long does it last?\"],\"done\":true\x7d")]).finalText =
      strOf ("## Flu\n**Fever**\n\n") ∧
    (runConsume [strOf ("## Flu\n"), strOf ("**Fever**\n"),
        strOf ("\n___METADATA___\n"),
        strOf ("\x7b\"suggestions\":[\"How long does it last?\"],\"done\":true\x7d")]).parsedMeta =
      none ∧
    (runConsume [strOf ("## Flu\n"), strOf ("**Fever**\n"),
        strOf ("\n___METADATA___\n"),
        strOf ("\x7b\"suggestions\":[\"How long does it last?\"],\"done\":true\x7d")]).suggestions =
      JValue.jarr [] := by
  exact ⟨by decide, rfl, rfl, rfl⟩

/-- Claim C5: when the text after the sentinel is malformed JSON, the
consumer still finalizes the message with the text before the first
sentinel occurrence and an empty suggestion list; the parse failure is
caught (the total function returns a plain result, nothing is raised) and
no metadata is attached. -/
theorem graceful_metadata_failure (chunks : List Str) (a rest : Str)
    (hsplit : splitFirst sentinel (joinL chunks) = some (a, rest))
    (hdrop : containsSub sentinel (joinL chunks.dropLast) = false)
    (hrest : containsSub sentinel rest = false)
    (hparse : jsonParse rest = none) :
    runConsume chunks = ⟨a, none, JValue.jarr []⟩ := by
  obtain ⟨h1, h2, h3⟩ := runConsume_found chunks a rest hsplit hdrop hrest
  rw [hparse] at h2 h3
  rcases hrc : runConsume chunks with ⟨f, m, s⟩
  rw [hrc] at h1 h2 h3
  simp only at h1 h2 h3
  rw [h1, h2, h3]

/-- Witness for C5: a single chunk whose post-sentinel text is not JSON
finalizes with the pre-sentinel text and no suggestions. -/
theorem graceful_metadata_failure_witness :
    runConsume [strOf ("Hello.\n___METADATA___\nnot json")] =
      ⟨strOf ("Hello.\n"), none, JValue.jarr []⟩ :=
  graceful_metadata_failure [strOf ("Hello.\n___METADATA___\nnot json")]
    (strOf ("Hello.\n")) (strOf ("\nnot json")) rfl rfl rfl rfl

/-- Counterexample to C4 as stated: the route's suggestion extraction has
no cap at 4 items — five qualifying candidate lines all land in the
metadata's suggestions. -/
theorem suggestion_count_counterexample :
    (extractSuggestions (strOf
      ("**Follow-up Questions:**\n- Could it be something else?\n- How long does it last?\n- When should I see a doctor?\n- What medicine should I take?\n- Is this contagious to others?"))).length = 5 ∧
    ¬(extractSuggestions (strOf
      ("**Follow-up Questions:**\n- Could it be something else?\n- How long does it last?\n- When should I see a doctor?\n- What medicine should I take?\n- Is this contagious to others?"))).length ≤ 4 := by
  exact ⟨by decide, by decide⟩

/-- Claim C4 (amended): the metadata's `suggestions` field is the ordered
sequence of candidate lines passing the `[11, 149]` length filter, with no
count cap applied by the relay — six qualifying lines yield six suggestions,
in order. -/
theorem suggestion_count_uncapped :
    extractSuggestions (strOf
      ("**Follow-up Questions:**\n- Could it be something else?\n- How long does it last?\n- When should I see a doctor?\n- What medicine should I take?\n- Is this contagious to others?\n- Should I rest at home today?")) =
      [strOf ("Could it be something else?"),
       strOf ("How long does it last?"),
       strOf ("When should I see a doctor?"),
       strOf ("What medicine should I take?"),
       strOf ("Is this contagious to others?"),
       strOf ("Should I rest at home today?")] := by
  decide

/-- Claim C2: for an upstream chunk sequence that completes normally, the
relay forwards every content chunk unmodified and in order, then enqueues
exactly one final segment — the literal sentinel `"\n___METADATA___\n"`
followed by the serialization of `{suggestions, done: true, timestamp,
category}` computed from the full concatenated text — and then closes the
downstream channel, emitting nothing after the close. -/
theorem relay_finalization (chunks : List Str) (timestamp : Str)
    (category : Option Str) :
    relayRun chunks timestamp category =
      chunks.map StreamEvent.chunk ++
        [.chunk (strOf ("\n___METADATA___\n") ++
           stringifyMetadata (extractSuggestions (joinL chunks)) timestamp
             (jsOrDefault category (strOf ("general")))),
         .close] := by
  rw [relayRun, relayGo_eq]
  simp [metadataSegment]

/-- Claim C3: in the relay's suggestion extraction, a candidate line (a line
of the captured section, trimmed and with a leading bullet marker stripped)
is kept exactly when its length lies in `[11, 149]`: lines shorter than 11
or longer than 149 characters are excluded, and lines of exactly 11 or
exactly 149 characters are included. -/
theorem suggestion_length_filter (t body : Str)
    (hbody : findFUQBody t = some body) :
    ∀ l ∈ (splitOnNl body).map cleanSuggestionLine,
      (l ∈ extractSuggestions t ↔ 11 ≤ l.length ∧ l.length ≤ 149) := by
  intro l hl
  by_cases hb : body.isEmpty
  · rw [List.isEmpty_iff] at hb
    subst hb
    simp only [splitOnNl, List.map_cons, List.map_nil,
      List.mem_singleton] at hl
    subst hl
    simp [extractSuggestions, hbody, cleanSuggestionLine, jsTrim,
      stripBullet]
  · rw [extractSuggestions, hbody]
    simp only [hb, Bool.false_eq_true, if_false, List.mem_filter,
      suggestionLenOK]
    constructor
    · rintro ⟨-, hlen⟩
      simp only [Bool.and_eq_true, decide_eq_true_eq] at hlen
      omega
    · intro hlen
      refine ⟨hl, ?_⟩
      simp only [Bool.and_eq_true, decide_eq_true_eq]
      omega

/-- Witness for C3 at a concrete section: an 11-character and a
149-character candidate line are kept, a 10-character one is not. -/
theorem suggestion_length_filter_witness :
    strOf ("abcdefghijk") ∈
      extractSuggestions (strOf ("**Follow-up Questions:**\nabcdefghijk\n") ++
        List.replicate 149 'q' ++ strOf ("\nabcdefghij")) ∧
    List.replicate 149 'q' ∈
      extractSuggestions (strOf ("**Follow-up Questions:**\nabcdefghijk\n") ++
        List.replicate 149 'q' ++ strOf ("\nabcdefghij")) ∧
    strOf ("abcdefghij") ∉
      extractSuggestions (strOf ("**Follow-up Questions:**\nabcdefghijk\n") ++
        List.replicate 149 'q' ++ strOf ("\nabcdefghij")) := by
  have h := suggestion_length_filter
    (strOf ("**Follow-up Questions:**\nabcdefghijk\n") ++
      List.replicate 149 'q' ++ strOf ("\nabcdefghij"))
    (strOf ("\nabcdefghijk\n") ++ List.replicate 149 'q' ++
      strOf ("\nabcdefghij"))
    (by decide)
  refine ⟨?_, ?_, ?_⟩
  · exact (h (strOf ("abcdefghijk")) (by decide)).mpr (by decide)
  · exact (h (List.replicate 149 'q') (by decide)).mpr (by decide)
  · intro hmem
    have := (h (strOf ("abcdefghij")) (by decide)).mp hmem
    revert this
    decide

/-- Sample nested model data for concrete store instances. -/
def sampleModelData : AiModelData :=
  ⟨strOf ("GeminiMedical-2.0"), strOf ("2026-01-01T00:00:00Z"),
    strOf ("1.4 seconds"), strOf ("46 symptom patterns analyzed")⟩

/-- A sample stored record for concrete store instances. -/
def sampleDiagnosis : DiagnosisData :=
  ⟨strOf ("1"), strOf ("2023-05-10"), strOf ("Symptom Analysis"),
    strOf ("Pneumonia"), 87, strOf ("pending"), strOf ("Persistent cough"),
    strOf ("Pending Review"), [], [], sampleModelData,
    [strOf ("Rest for at least 5 days")],
    [strOf ("History of respiratory conditions")], none, none⟩

/-- A sample record-without-id for `addDiagnosis`. -/
def sampleInput : DiagnosisInput :=
  ⟨strOf ("2026-02-03"), strOf ("Symptom Analysis"),
    strOf ("Seasonal Allergic Rhinitis"), 92, strOf ("pending"),
    strOf ("Sneezing, runny nose"), strOf ("Pending Review"), [], [],
    sampleModelData, [strOf ("Over-the-counter antihistamines")],
    [strOf ("History of allergies")], none, none⟩

/-- A sample partial update touching only `status` and `reviewDate`. -/
def sampleUpdate : DiagnosisUpdate :=
  ⟨none, none, none, none, none, some (strOf ("approved")), none, none,
    none, none, none, none, none, none, some (some (strOf ("2023-06-01")))⟩

theorem jsSliceLast_eq_drop (k : Nat) (l : List α) :
    jsSliceLast k l = l.drop (l.length - k) := by
  have h := List.rtake_eq_reverse_take_reverse l k
  simpa [jsSliceLast, List.rtake] using h.symm

theorem jsSliceLast_length_le (k : Nat) (l : List α) :
    (jsSliceLast k l).length ≤ k := by
  simp only [jsSliceLast, List.length_reverse, List.length_take]
  omega

theorem jsSliceLast_append_one (k : Nat) (hk : 1 ≤ k) (l : List α) (t : α) :
    jsSliceLast k (jsSliceLast k l ++ [t]) = jsSliceLast k (l ++ [t]) := by
  obtain ⟨k, rfl⟩ : ∃ m, k = m + 1 := ⟨k - 1, by omega⟩
  simp [jsSliceLast, List.take_take, List.take_succ_cons, Nat.min_def]

theorem foldl_pushTurn_eq (a : List ConversationMessage)
    (ts : List ConversationMessage) :
    List.foldl pushTurn (jsSliceLast 10 a) ts = jsSliceLast 10 (a ++ ts) := by
  induction ts generalizing a with
  | nil => simp
  | cons t ts ih =>
    have h1 : pushTurn (jsSliceLast 10 a) t = jsSliceLast 10 (a ++ [t]) :=
      jsSliceLast_append_one 10 (by omega) a t
    calc List.foldl pushTurn (jsSliceLast 10 a) (t :: ts)
        = List.foldl pushTurn (jsSliceLast 10 (a ++ [t])) ts := by
          simp [List.foldl_cons, h1]
      _ = jsSliceLast 10 ((a ++ [t]) ++ ts) := ih (a ++ [t])
      _ = jsSliceLast 10 (a ++ (t :: ts)) := by simp

/-- Claim C6: when an abort is signalled mid-stream (before the sentinel
was seen), the turn's state is discarded silently — the conversation
history equals its pre-submission value plus only the user's own turn, no
error message is appended, and no assistant message is finalized: the only
message rows added are the user's message and the still-streaming
placeholder. -/
theorem cancellation_silence (st : ChatState) (now : Nat)
    (consumed : List Str) (hload : st.isLoading = false)
    (hinput : (jsTrim st.inputMessage).isEmpty = false)
    (hsent : containsSub sentinel (joinL consumed) = false) :
    handleSubmit st now (.abortedMid consumed) =
      ⟨st.messages ++
          [mkUserMsg now (jsTrim st.inputMessage), mkAiPlaceholder now],
        pushTurn st.conversationHistory ⟨.user, jsTrim st.inputMessage⟩,
        JValue.jarr [], false, []⟩ ∧
    (∀ m ∈ (handleSubmit st now (.abortedMid consumed)).messages,
      m ∉ st.messages → m.status = none ∧ m.streaming ≠ some false) ∧
    (st.conversationHistory.length < 10 →
      (handleSubmit st now (.abortedMid consumed)).conversationHistory =
        st.conversationHistory ++ [⟨.user, jsTrim st.inputMessage⟩]) := by
  have hrl : (readLoop consumed []).2 = none := by
    rw [readLoop_none consumed [] (by simpa using hsent)]
  have heq : handleSubmit st now (.abortedMid consumed) =
      ⟨st.messages ++
          [mkUserMsg now (jsTrim st.inputMessage), mkAiPlaceholder now],
        pushTurn st.conversationHistory ⟨.user, jsTrim st.inputMessage⟩,
        JValue.jarr [], false, []⟩ := by
    rw [handleSubmit]
    rw [if_neg (by rw [hinput, hload]; simp)]
    dsimp only
    rw [hrl]
    simp [List.append_assoc]
  refine ⟨heq, ?_, ?_⟩
  · intro m hm hnotold
    rw [heq] at hm
    simp only [List.mem_append, List.mem_cons, List.not_mem_nil,
      or_false] at hm
    rcases hm with hold | rfl | rfl
    · exact absurd hold hnotold
    · exact ⟨rfl, by simp [mkUserMsg]⟩
    · exact ⟨rfl, by simp [mkAiPlaceholder]⟩
  · intro hlen
    rw [heq]
    show pushTurn st.conversationHistory ⟨.user, jsTrim st.inputMessage⟩ = _
    rw [pushTurn, jsSliceLast_eq_drop]
    have : (st.conversationHistory ++
        [(⟨.user, jsTrim st.inputMessage⟩ : ConversationMessage)]).length ≤
        10 := by
      simp only [List.length_append, List.length_cons, List.length_nil]
      omega
    rw [Nat.sub_eq_zero_of_le this, List.drop_zero]

/-- Witness for C6 on a concrete state: one user message submitted, the
stream aborted after a partial chunk. -/
theorem cancellation_silence_witness :
    handleSubmit ⟨[], [], JValue.jarr [], false, strOf ("hi doctor")⟩ 5
        (.abortedMid [strOf ("partial resp")]) =
      ⟨[mkUserMsg 5 (strOf ("hi doctor")), mkAiPlaceholder 5],
        [⟨Role.user, strOf ("hi doctor")⟩], JValue.jarr [], false, []⟩ := by
  have h := cancellation_silence
    ⟨[], [], JValue.jarr [], false, strOf ("hi doctor")⟩ 5
    [strOf ("partial resp")] rfl rfl rfl
  exact h.1

/-- Claim C7: starting from an empty conversation history and appending each
turn with `[...prev, turn].slice(-10)`, the retained history always equals
the most recent (up to) 10 turns in their original order (the oldest turns
being the ones dropped), and in particular its length never exceeds 10. -/
theorem history_window_invariant (ts : List ConversationMessage) :
    List.foldl pushTurn [] ts = ts.drop (ts.length - 10) ∧
    (List.foldl pushTurn [] ts).length ≤ 10 := by
  have h0 : (([] : List ConversationMessage)) = jsSliceLast 10 [] := rfl
  have h := foldl_pushTurn_eq [] ts
  rw [← h0] at h
  simp only [List.nil_append] at h
  refine ⟨?_, ?_⟩
  · rw [h, jsSliceLast_eq_drop]
  · rw [h]; exact jsSliceLast_length_le 10 ts

theorem percentWsTail_pre (acc r tok : Str)
    (h : percentWsTail acc r = some tok) : ∃ rest, acc ++ r = tok ++ rest := by
  unfold percentWsTail at h
  split at h
  · rename_i rest heq
    obtain rfl : acc ++ r.takeWhile jsWs ++ ['%'] = tok := Option.some.inj h
    refine ⟨rest, ?_⟩
    conv_lhs => rw [← List.takeWhile_append_dropWhile (p := jsWs) (l := r)]
    rw [heq]
    simp
  · exact absurd h (by simp)

theorem percentFracTry_pre (d r tok : Str)
    (h : percentFracTry d r = some tok) : ∃ rest, d ++ r = tok ++ rest := by
  unfold percentFracTry at h
  split at h
  · rename_i r2
    split at h
    · exact absurd h (by simp)
    · obtain ⟨rest, hrest⟩ :=
        percentWsTail_pre (d ++ '.' :: r2.takeWhile digitB)
          (r2.dropWhile digitB) tok h
      refine ⟨rest, ?_⟩
      rw [← hrest]
      simp [List.takeWhile_append_dropWhile]
  · exact absurd h (by simp)

theorem matchPercent_pre (u tok : Str) (h : matchPercent u = some tok) :
    ∃ rest, u = tok ++ rest := by
  unfold matchPercent at h
  split at h
  · exact absurd h (by simp)
  · have hu : u = u.takeWhile digitB ++ u.dropWhile digitB :=
      (List.takeWhile_append_dropWhile (p := digitB) (l := u)).symm
    split at h
    · rename_i tok' hft
      have htok : tok' = tok := Option.some.inj h
      obtain ⟨rest, hrest⟩ :=
        percentFracTry_pre (u.takeWhile digitB) (u.dropWhile digitB) tok' hft
      exact ⟨rest, by rw [hu, hrest, htok]⟩
    · obtain ⟨rest, hrest⟩ :=
        percentWsTail_pre (u.takeWhile digitB) (u.dropWhile digitB) tok h
      exact ⟨rest, by rw [hu, hrest]⟩

/-- Counterexample to C8 as stated: `"take 87 % now"` holds no token of the
literal shape `NN[.N]%` (the digits are separated from the percent sign by
a space), yet `extractConfidence` returns `"87 %"`, not the empty string —
the regex `/(\d+(?:\.\d+)?\s*%)/` admits whitespace before the `%`. -/
theorem confidence_strict_form_counterexample :
    hasStrictPercentToken (strOf ("take 87 % now")) = false ∧
    extractConfidence "take 87 % now" = "87 %" ∧
    extractConfidence "take 87 % now" ≠ "" := by
  exact ⟨by decide, by decide, by decide⟩

/-- Claim C8 (amended): `extractConfidence` is total (absence of a match
yields `""`, never an exception) and returns the leftmost match of the
pattern `\d+(?:\.\d+)?\s*%` — digits, an optional fraction, then optional
whitespace before the percent sign (the whitespace allowance being the
amendment over the claimed `NN[.N]%` shape): either no position of the text
matches and the result is empty, or the text splits around the result, the
result matches at its position, and no earlier position matches. In
particular `"...diagnosis with 87% confidence..."` yields `"87%"` and a
text with no percent sign yields `""`. -/
theorem confidence_extraction_amended :
    (∀ t : Str,
      (extractConfidenceL t = [] ∧ ∀ u, u <:+ t → matchPercent u = none) ∨
      (∃ pre rest, t = pre ++ extractConfidenceL t ++ rest ∧
        matchPercent (extractConfidenceL t ++ rest) =
          some (extractConfidenceL t) ∧
        ∀ u, u <:+ t → (extractConfidenceL t ++ rest).length < u.length →
          matchPercent u = none)) ∧
    extractConfidence "...diagnosis with 87% confidence..." = "87%" ∧
    extractConfidence "There is no number here." = "" := by
  refine ⟨?_, by decide, by decide⟩
  intro t
  induction t with
  | nil =>
    left
    refine ⟨rfl, ?_⟩
    intro u hu
    rw [List.suffix_nil.mp hu]
    rfl
  | cons c cs ih =>
    cases hm : matchPercent (c :: cs) with
    | some tok =>
      right
      obtain ⟨rest, hrest⟩ := matchPercent_pre _ _ hm
      have hE : extractConfidenceL (c :: cs) = tok := by
        simp only [extractConfidenceL, hm]
      refine ⟨[], rest, ?_, ?_, ?_⟩
      · rw [hE]
        simpa using hrest
      · rw [hE, ← hrest]
        exact hm
      · intro u hu hlen
        have hle := hu.length_le
        rw [hE, ← hrest] at hlen
        omega
    | none =>
      have hE : extractConfidenceL (c :: cs) = extractConfidenceL cs := by
        simp only [extractConfidenceL, hm]
      rcases ih with ⟨h1, h2⟩ | ⟨pre, rest, hsplit, hmt, hall⟩
      · left
        refine ⟨hE.trans h1, ?_⟩
        intro u hu
        rcases List.suffix_cons_iff.mp hu with rfl | hu'
        · exact hm
        · exact h2 u hu'
      · right
        refine ⟨c :: pre, rest, ?_, ?_, ?_⟩
        · rw [hE]
          conv_lhs => rw [hsplit]
          simp
        · rw [hE]
          exact hmt
        · intro u hu hlen
          rcases List.suffix_cons_iff.mp hu with rfl | hu'
          · exact hm
          · refine hall u hu' ?_
            rw [hE] at hlen
            exact hlen

theorem storeLookup_set_self (l : List (Str × DiagnosisData)) (id : Str)
    (v : DiagnosisData) : storeLookup (storeSet l id v) id = some v := by
  induction l with
  | nil => simp [storeSet, storeLookup]
  | cons p rest ih =>
    rcases p with ⟨k, v'⟩
    by_cases hk : k = id
    · simp [storeSet, storeLookup, hk]
    · simp only [storeSet, if_neg hk]
      simp only [storeLookup, if_neg hk]
      exact ih

theorem storeLookup_set_other (l : List (Str × DiagnosisData)) (id : Str)
    (v : DiagnosisData) (k : Str) (h : k ≠ id) :
    storeLookup (storeSet l id v) k = storeLookup l k := by
  have hik : ¬id = k := fun hh => h hh.symm
  induction l with
  | nil =>
    simp only [storeSet, storeLookup]
    rw [if_neg hik]
  | cons p rest ih =>
    rcases p with ⟨k', v'⟩
    by_cases hk : k' = id
    · subst hk
      simp only [storeSet, if_pos rfl, storeLookup]
      rw [if_neg hik, if_neg hik]
    · simp only [storeSet, if_neg hk, storeLookup]
      by_cases hkk : k' = k
      · rw [if_pos hkk, if_pos hkk]
      · rw [if_neg hkk, if_neg hkk]
        exact ih

theorem storeLookup_none_of_fresh (l : List (Str × DiagnosisData)) (k : Str)
    (h : ∀ p ∈ l, p.1 ≠ k) : storeLookup l k = none := by
  induction l with
  | nil => rfl
  | cons p rest ih =>
    rcases p with ⟨k', v⟩
    simp only [storeLookup]
    rw [if_neg (h (k', v) (by simp))]
    exact ih fun q hq => h q (by simp [hq])

theorem mem_storeSet (l : List (Str × DiagnosisData)) (id : Str)
    (v : DiagnosisData) (p : Str × DiagnosisData) :
    p ∈ storeSet l id v → p = (id, v) ∨ p ∈ l := by
  induction l with
  | nil =>
    intro h
    simp only [storeSet, List.mem_singleton] at h
    exact Or.inl h
  | cons q rest ih =>
    intro h
    rcases q with ⟨k', v'⟩
    by_cases hk : k' = id
    · simp only [storeSet] at h
      rw [if_pos hk, List.mem_cons] at h
      rcases h with heq | hmem
      · rw [hk] at heq
        exact Or.inl heq
      · exact Or.inr (List.mem_cons_of_mem _ hmem)
    · simp only [storeSet] at h
      rw [if_neg hk, List.mem_cons] at h
      rcases h with heq | hmem
      · exact Or.inr (heq ▸ List.mem_cons_self _ _)
      · rcases ih hmem with h1 | h2
        · exact Or.inl h1
        · exact Or.inr (List.mem_cons_of_mem _ h2)

/-- Claim C9: `updateDiagnosis` on an absent id returns `undefined` and
leaves the store untouched; on a present id it merges the partial update
over the stored record — every field not named in the update keeps its
previous value — stores and returns the merged record, and leaves every
other record unchanged. -/
theorem update_frame_atomicity (st : DiagnosesStore) (id : Str)
    (u : DiagnosisUpdate) :
    (getDiagnosis st id = none → updateDiagnosis st id u = (none, st)) ∧
    (∀ d, getDiagnosis st id = some d →
      (updateDiagnosis st id u).1 = some (mergeDiag d u) ∧
      getDiagnosis (updateDiagnosis st id u).2 id = some (mergeDiag d u) ∧
      (∀ k, k ≠ id →
        getDiagnosis (updateDiagnosis st id u).2 k = getDiagnosis st k) ∧
      (updateDiagnosis st id u).2.counter = st.counter ∧
      (u.id = none → (mergeDiag d u).id = d.id) ∧
      (u.diagnosisDate = none →
        (mergeDiag d u).diagnosisDate = d.diagnosisDate) ∧
      (u.type = none → (mergeDiag d u).type = d.type) ∧
      (u.aiDiagnosis = none → (mergeDiag d u).aiDiagnosis = d.aiDiagnosis) ∧
      (u.confidence = none → (mergeDiag d u).confidence = d.confidence) ∧
      (u.status = none → (mergeDiag d u).status = d.status) ∧
      (u.symptoms = none → (mergeDiag d u).symptoms = d.symptoms) ∧
      (u.doctorName = none → (mergeDiag d u).doctorName = d.doctorName) ∧
      (u.doctorFeedback = none →
        (mergeDiag d u).doctorFeedback = d.doctorFeedback) ∧
      (u.imageSrc = none → (mergeDiag d u).imageSrc = d.imageSrc) ∧
      (u.aiModelData = none → (mergeDiag d u).aiModelData = d.aiModelData) ∧
      (u.treatmentRecommendations = none →
        (mergeDiag d u).treatmentRecommendations =
          d.treatmentRecommendations) ∧
      (u.riskFactors = none → (mergeDiag d u).riskFactors = d.riskFactors) ∧
      (u.aiResponse = none → (mergeDiag d u).aiResponse = d.aiResponse) ∧
      (u.reviewDate = none → (mergeDiag d u).reviewDate = d.reviewDate)) := by
  constructor
  · intro h
    rw [getDiagnosis] at h
    simp only [updateDiagnosis, h]
  · intro d h
    rw [getDiagnosis] at h
    have hupd : updateDiagnosis st id u =
        (some (mergeDiag d u),
          ⟨storeSet st.entries id (mergeDiag d u), st.counter⟩) := by
      simp only [updateDiagnosis, h]
    rw [hupd]
    refine ⟨rfl, storeLookup_set_self _ _ _,
      fun k hk => storeLookup_set_other _ _ _ _ hk, rfl, ?_, ?_, ?_, ?_, ?_,
      ?_, ?_, ?_, ?_, ?_, ?_, ?_, ?_, ?_, ?_⟩ <;>
      (intro hf; simp [mergeDiag, hf])

/-- Witness for C9: a missing id leaves the store unchanged; updating the
`status`/`reviewDate` of a present record keeps its `confidence` and
`aiDiagnosis`. -/
theorem update_frame_atomicity_witness :
    updateDiagnosis ⟨[], 0⟩ (strOf ("9")) sampleUpdate = (none, ⟨[], 0⟩) ∧
    (updateDiagnosis ⟨[(strOf ("1"), sampleDiagnosis)], 3⟩ (strOf ("1"))
        sampleUpdate).1 = some (mergeDiag sampleDiagnosis sampleUpdate) ∧
    (mergeDiag sampleDiagnosis sampleUpdate).confidence =
      sampleDiagnosis.confidence ∧
    (mergeDiag sampleDiagnosis sampleUpdate).aiDiagnosis =
      sampleDiagnosis.aiDiagnosis := by
  have h1 := update_frame_atomicity ⟨[], 0⟩ (strOf ("9")) sampleUpdate
  have h2 := update_frame_atomicity ⟨[(strOf ("1"), sampleDiagnosis)], 3⟩
    (strOf ("1")) sampleUpdate
  obtain ⟨hres, -, -, -, -, -, -, hdiag, hconf, -⟩ :=
    h2.2 sampleDiagnosis rfl
  exact ⟨h1.1 rfl, hres, hconf rfl, hdiag rfl⟩

theorem digitChar_inj :
    ∀ a, a < 10 → ∀ b, b < 10 → digitChar a = digitChar b → a = b := by
  decide

theorem natStrAux_ne_nil (f n : Nat) : natStrAux (f + 1) n ≠ [] := by
  rw [natStrAux]
  split
  · simp
  · simp

theorem natStrAux_inj :
    ∀ f, ∀ a, a < f → ∀ g, ∀ b, b < g →
      natStrAux f a = natStrAux g b → a = b := by
  intro f
  induction f with
  | zero => intro a ha; omega
  | succ f ihf =>
    intro a ha g b hb heq
    rcases g with _ | g'
    · omega
    rw [natStrAux, natStrAux] at heq
    by_cases h1 : a < 10 <;> by_cases h2 : b < 10
    · rw [if_pos h1, if_pos h2] at heq
      exact digitChar_inj a h1 b h2 (by simpa using heq)
    · rw [if_pos h1, if_neg h2] at heq
      exfalso
      have hlen := congrArg List.length heq
      simp only [List.length_cons, List.length_nil, List.length_append] at hlen
      have hnil : natStrAux g' (b / 10) = [] := by
        cases hx : natStrAux g' (b / 10) with
        | nil => rfl
        | cons y ys => rw [hx] at hlen; simp at hlen
      rcases g' with _ | g''
      · omega
      · exact natStrAux_ne_nil g'' (b / 10) hnil
    · rw [if_neg h1, if_pos h2] at heq
      exfalso
      have hlen := congrArg List.length heq
      simp only [List.length_cons, List.length_nil, List.length_append] at hlen
      have hnil : natStrAux f (a / 10) = [] := by
        cases hx : natStrAux f (a / 10) with
        | nil => rfl
        | cons y ys => rw [hx] at hlen; simp at hlen
      rcases f with _ | f''
      · omega
      · exact natStrAux_ne_nil f'' (a / 10) hnil
    · rw [if_neg h1, if_neg h2] at heq
      obtain ⟨heq1, heq2⟩ := List.append_inj' heq rfl
      have hm : a % 10 = b % 10 :=
        digitChar_inj (a % 10) (by omega) (b % 10) (by omega)
          (by simpa using heq2)
      have hd : a / 10 = b / 10 := by
        refine ihf (a / 10) ?_ g' (b / 10) ?_ heq1
        · have := Nat.div_lt_self (by omega : 0 < a) (by omega : 1 < 10)
          omega
        · have := Nat.div_lt_self (by omega : 0 < b) (by omega : 1 < 10)
          omega
      have ha10 := Nat.div_add_mod a 10
      have hb10 := Nat.div_add_mod b 10
      omega

theorem natStr_inj (a b : Nat) (h : natStr a = natStr b) : a = b :=
  natStrAux_inj (a + 1) a (by omega) (b + 1) b (by omega) h

/-- Claim C10: each `addDiagnosis` call allocates the decimal string of the
incremented counter as a fresh id — never overwriting an existing entry —
stores the given record under it with the id attached, returns that record,
and leaves all previously stored records unchanged. Starting from the
seeded store (ids `"1"`, `"2"`, `"3"`, counter 3), successive ids are the
decimals of 4, 5, 6, … in strictly increasing order, disjoint from the
seeded ids. -/
theorem fresh_id_insertion (st : DiagnosesStore) (d : DiagnosisInput)
    (hb : StoreKeysBounded st) (hc : 3 ≤ st.counter) :
    ((addDiagnosis st d).1).id = natStr (st.counter + 1) ∧
    (addDiagnosis st d).1 = withId d (natStr (st.counter + 1)) ∧
    getDiagnosis st (natStr (st.counter + 1)) = none ∧
    (∀ k v, storeLookup st.entries k = some v →
      storeLookup (addDiagnosis st d).2.entries k = some v) ∧
    getDiagnosis (addDiagnosis st d).2 (natStr (st.counter + 1)) =
      some (withId d (natStr (st.counter + 1))) ∧
    (addDiagnosis st d).2.counter = st.counter + 1 ∧
    StoreKeysBounded (addDiagnosis st d).2 ∧
    natStr (st.counter + 1) ≠ strOf ("1") ∧
    natStr (st.counter + 1) ≠ strOf ("2") ∧
    natStr (st.counter + 1) ≠ strOf ("3") ∧
    (∀ d1 d2 d3, StoreKeysBounded (seededStore d1 d2 d3)) := by
  have hfreshkey : ∀ p ∈ st.entries, p.1 ≠ natStr (st.counter + 1) := by
    intro p hp hpk
    obtain ⟨m, hm1, hm2, hm3⟩ := hb p.1 p.2 (by simpa using hp)
    rw [hm3] at hpk
    have := natStr_inj m (st.counter + 1) hpk
    omega
  have hfresh : getDiagnosis st (natStr (st.counter + 1)) = none :=
    storeLookup_none_of_fresh st.entries _ hfreshkey
  refine ⟨rfl, rfl, hfresh, ?_, ?_, rfl, ?_, ?_, ?_, ?_, ?_⟩
  · intro k v hkv
    by_cases hk : k = natStr (st.counter + 1)
    · subst hk
      rw [getDiagnosis] at hfresh
      rw [hfresh] at hkv
      exact absurd hkv (by simp)
    · simp only [addDiagnosis]
      rw [storeLookup_set_other _ _ _ _ hk]
      exact hkv
  · simp only [addDiagnosis, getDiagnosis]
    exact storeLookup_set_self _ _ _
  · intro k v hkv
    simp only [addDiagnosis] at hkv
    rcases mem_storeSet _ _ _ _ hkv with heq | hmem
    · rw [Prod.mk.injEq] at heq
      exact ⟨st.counter + 1, by omega, by simp [addDiagnosis], heq.1⟩
    · obtain ⟨m, hm1, hm2, hm3⟩ := hb k v hmem
      exact ⟨m, hm1, by simp [addDiagnosis]; omega, hm3⟩
  · intro hx
    have := natStr_inj (st.counter + 1) 1 (hx.trans (by decide))
    omega
  · intro hx
    have := natStr_inj (st.counter + 1) 2 (hx.trans (by decide))
    omega
  · intro hx
    have := natStr_inj (st.counter + 1) 3 (hx.trans (by decide))
    omega
  · intro d1 d2 d3 k v hmem
    simp only [seededStore, List.mem_cons, List.not_mem_nil, or_false]
      at hmem
    rcases hmem with h | h | h <;> rw [Prod.mk.injEq] at h
    · exact ⟨1, by omega, by simp [seededStore], by rw [h.1]; decide⟩
    · exact ⟨2, by omega, by simp [seededStore], by rw [h.1]; decide⟩
    · exact ⟨3, by omega, by simp [seededStore], by rw [h.1]; decide⟩

/-- Witness for C10: adding to the seeded store allocates id `"4"`, which
was not present before and is stored afterwards. -/
theorem fresh_id_insertion_witness :
    ((addDiagnosis
        (seededStore sampleDiagnosis sampleDiagnosis sampleDiagnosis)
        sampleInput).1).id = strOf ("4") ∧
    getDiagnosis (seededStore sampleDiagnosis sampleDiagnosis sampleDiagnosis)
      (strOf ("4")) = none := by
  have h := fresh_id_insertion
    (seededStore sampleDiagnosis sampleDiagnosis sampleDiagnosis)
    sampleInput
    (by
      intro k v hmem
      simp only [seededStore, List.mem_cons, List.not_mem_nil, or_false]
        at hmem
      rcases hmem with hh | hh | hh <;> rw [Prod.mk.injEq] at hh
      · exact ⟨1, by omega, by decide, by rw [hh.1]; decide⟩
      · exact ⟨2, by omega, by decide, by rw [hh.1]; decide⟩
      · exact ⟨3, by omega, by decide, by rw [hh.1]; decide⟩)
    (by decide)
  refine ⟨h.1.trans (by decide), ?_⟩
  have h4 : natStr
      ((seededStore sampleDiagnosis sampleDiagnosis sampleDiagnosis).counter +
        1) = strOf ("4") := by decide
  have := h.2.2.1
  rw [h4] at this
  exact this

end HealthcareSpec
